import Mathlib

/-!
Verification of the cayley graph-database core against its specification.

This development shallowly embeds the pieces of the source that the checked
properties talk about:

* the schema / object-graph-mapping package (field-rule parsing, quad
  writing, sub-graph loading),
* the `Handle` facade,
* the N-Quads surface entry point (`Parse`), and
* the iterator algebra test scenario (`Count`, `And`, `Fixed`).

Go strings are embedded as `List Char` so that the string-splitting done by
the rule parsing can be reasoned about by induction.  Go maps are embedded
as association lists with last-write-wins insertion.  Stateful quad writing
is embedded by returning the list of quads written so far together with an
optional error (a Go function that errors mid-way leaves the quads already
written in the writer, which the pair captures).
-/

deriving instance DecidableEq for Except

/-- Embedding of a Go `string` as a list of characters. -/
abbrev GoString := List Char

/-- Shorthand to build a `GoString` from a Lean string literal. -/
def gs (s : String) : GoString := s.toList

/-- Does the string contain the given character? (Go `strings.Contains` with
a one-character separator.) -/
def goContains (sep : Char) : GoString → Bool
  | [] => false
  | c :: r => c = sep || goContains sep r

/-- Go `strings.Split(s, sep)` for a one-character separator.  Note that
`strings.Split("", sep) = [""]`. -/
def goSplit (sep : Char) : GoString → List GoString
  | [] => [[]]
  | c :: rest =>
    match goSplit sep rest with
    | [] => [[]]
    | h :: t => if c = sep then [] :: h :: t else (c :: h) :: t

/-- Splits off the part of the string before the first occurrence of `sep`;
`none` when `sep` does not occur. -/
def splitFirst (sep : Char) : GoString → Option (GoString × GoString)
  | [] => none
  | c :: rest =>
    if c = sep then some ([], rest)
    else
      match splitFirst sep rest with
      | none => none
      | some (a, b) => some (c :: a, b)

/-- Go `strings.SplitN(s, sep, n)` for a one-character separator and `n > 0`:
at most `n` substrings, the last one holding the unsplit remainder. -/
def goSplitN (sep : Char) (n : Nat) (s : GoString) : List GoString :=
  match n with
  | 0 => []
  | 1 => [s]
  | m + 2 =>
    match splitFirst sep s with
    | none => [s]
    | some (a, b) => a :: goSplitN sep (m + 1) b

/-- Strips leading space characters (Go `strings.Trim` with cutset `" "`,
left half). -/
def trimLeftSpaces : GoString → GoString
  | [] => []
  | c :: r => if c = ' ' then trimLeftSpaces r else c :: r

/-- Strips trailing space characters. -/
def trimRightSpaces : GoString → GoString
  | [] => []
  | c :: r =>
    match trimRightSpaces r with
    | [] => if c = ' ' then [] else [c]
    | h :: t => c :: h :: t

/-- Go `strings.Trim(s, " ")`. -/
def trimSpaces (s : GoString) : GoString := trimRightSpaces (trimLeftSpaces s)

/-- Association-list lookup, embedding a Go map read. -/
def mapLookup {α : Type} (m : List (GoString × α)) (k : GoString) : Option α :=
  match m with
  | [] => none
  | (k', v) :: rest => if k' = k then some v else mapLookup rest k

/-- Association-list insert with Go map semantics (a later write for the same
key replaces the earlier one). -/
def mapInsert {α : Type} (m : List (GoString × α)) (k : GoString) (v : α) :
    List (GoString × α) :=
  (m.filter (fun kv => kv.1 ≠ k)) ++ [(k, v)]

/-- Embedding of `quad.Value`: the typed node values the claims exercise
(IRIs, blank nodes, plain strings and integers). -/
inductive QuadValue where
  | iri (s : GoString)
  | bnode (s : GoString)
  | str (s : GoString)
  | int (n : Int)
deriving DecidableEq, Repr

/-- Embedding of `quad.Quad`: subject, predicate, object and the optional
label (`nil` label encoded as `none`). -/
structure Quad where
  subject : QuadValue
  predicate : QuadValue
  object : QuadValue
  label : Option QuadValue
deriving DecidableEq, Repr

/-- Embedding of `schema.IRIMode` (`IRINative`, `IRIShort`, `IRIFull`). -/
inductive IRIMode where
  | native
  | short
  | full
deriving DecidableEq, Repr

/-- Embedding of the schema `rule` interface with its three implementations
`constraintRule`, `saveRule` and `idRule`.  Predicates and values of type
`quad.IRI` are Go strings. -/
inductive Rule where
  | constraint (pred : GoString) (val : GoString) (rev : Bool)
  | save (pred : GoString) (rev : Bool) (opt : Bool)
  | id
deriving DecidableEq, Repr

/-- Errors surfaced by the embedded schema package. -/
inductive WErr where
  | reqFieldNotSet (field : GoString)
  | wrongTagFormat
  | noPredicate
  | unsupportedType
  | unsupportedIdType
  | anonNotSupported
  | cantLoadRules
  | noRules
  | indexPanic
  | reflectMismatch
deriving DecidableEq, Repr

/-- Embedding of the reflective view of one struct field
(`reflect.StructField`): its name, its `quad` and `json` tag values, and the
pieces of its type that `fieldRule` and `writeValueAs` inspect
(`Kind() == reflect.Slice`, `== reflect.TypeOf(struct\x7b\x7d\x7b\x7d)`, and
`Anonymous`). -/
structure GoField where
  name : GoString
  quadTag : GoString
  jsonTag : GoString
  isSlice : Bool
  isEmptyStruct : Bool
  anonymous : Bool
deriving DecidableEq, Repr

mutual
/-- Embedding of the reflective view of a Go value stored in a struct field.
A field either holds a value of a `quad.Value` type (`qval`), a plain Go
string (`gostr`, which `quad.AsValue` converts to `quad.String` but which the
id-field switch in `idFor` treats differently from `quad.String`), a nested
struct (`record`), a slice (`slice`), or the empty struct `unit`. -/
inductive FieldVal where
  | qval (v : QuadValue)
  | gostr (s : GoString)
  | record (r : Record)
  | slice (elems : List FieldVal)
  | unit

/-- Embedding of a Go struct value together with its reflective type
information: the type's name (the key of the process-wide type registry) and
the list of fields, each a descriptor paired with the stored value. -/
inductive Record where
  | mk (typeName : GoString) (fields : List (GoField × FieldVal))
end

/-- Type name of a record. -/
def Record.typeName : Record → GoString
  | .mk t _ => t

/-- Fields of a record. -/
def Record.fields : Record → List (GoField × FieldVal)
  | .mk _ fs => fs

/-- Embedding of the `interface\x7b\x7d` argument of `WriteAsQuads`: either a
value that already implements `quad.Value` or a struct. -/
inductive WObj where
  | val (v : QuadValue)
  | record (r : Record)

/-- Embedding of `schema.Config` plus the process-wide state the package
reads: the registered type-to-IRI mapping (`typeToIRI`), the package-level
`GenerateID` hook, and an oracle for `quad.RandomBlankNode` (randomness is
modelled as a fixed oracle value).  The `voc` namespace registry consulted by
`quad.IRI.Short`/`Full` is modelled by the two oracle functions `shortFn` and
`fullFn`. -/
structure SchemaConfig where
  iris : IRIMode
  label : Option QuadValue
  generateID : Option (Record → QuadValue)
  globalGenerateID : Option (Record → QuadValue)
  randomBNodeName : GoString
  shortFn : GoString → GoString
  fullFn : GoString → GoString
  typeToIRI : List (GoString × GoString)

/-- Modelled from the spec: the constant `rdf.Type` of the (absent) `voc/rdf`
package, the IRI that the reserved field name `@type` maps to. -/
def iriType : GoString := gs "rdf:type"

/-- Embedding of `Config.iri`: apply the configured IRI conversion mode. -/
def SchemaConfig.iriFn (c : SchemaConfig) (v : GoString) : GoString :=
  match c.iris with
  | .native => v
  | .short => c.shortFn v
  | .full => c.fullFn v

/-- Embedding of `Config.toIRI`: the reserved name `@type` becomes the RDF
type IRI, anything else is taken as an IRI literally; then the conversion
mode is applied. -/
def SchemaConfig.toIRIFn (c : SchemaConfig) (s : GoString) : GoString :=
  c.iriFn (if s = gs "@type" then iriType else s)

/-- Embedding of `Config.genID`: the configured `GenerateID` hook, else the
package-level hook, else a random blank node. -/
def SchemaConfig.genID (c : SchemaConfig) (o : Record) : QuadValue :=
  match c.generateID with
  | some gen => gen o
  | none =>
    match c.globalGenerateID with
    | some gen => gen o
    | none => QuadValue.bnode c.randomBNodeName

/-- Embedding of `Config.fieldRule`: parses one struct field's annotation
into `none` (ignored field) or one of the three rule forms.  Mirrors the
source line by line: the `quad` tag is split on commas into the rule text
and modifiers, an empty rule text falls back to the `json` tag, `-` and
empty annotations are ignored, `@id` is the identity rule, the `<` marker
selects the reverse `p<v` layout and `>` the forward `p>v` layout, and an
empty or `*` value part yields a save rule (except on `struct\x7b\x7d`
fields) while anything else yields a constraint rule.  The Go code indexes
`tri[1]` unconditionally in the reverse branch, which panics when the rule
text came from a `json` tag and contains `<`; the panic is embedded as the
`indexPanic` error. -/
def fieldRule (c : SchemaConfig) (fld : GoField) : Except WErr (Option Rule) :=
  let sub0 := goSplit ',' fld.quadTag
  let tag0 := sub0.headD []
  let sub := sub0.tail
  let tag1 := trimSpaces tag0
  let jsn := tag1.isEmpty
  let tag2 := if jsn then (goSplitN ',' 2 fld.jsonTag).headD [] else tag1
  if tag2.isEmpty || tag2 = gs "-" then Except.ok none
  else
    let rule := trimSpaces tag2
    if rule = gs "@id" then Except.ok (some Rule.id)
    else
      let optMod := sub.any (fun s => s = gs "opt" || s = gs "optional")
      let reqMod := sub.any (fun s => s = gs "req" || s = gs "required")
      let opt := if reqMod then false else if fld.isSlice then true else optMod
      let rev := goContains '<' rule
      let triE : Except WErr (List GoString) :=
        if jsn then Except.ok [rule]
        else if rev then
          let tri := goSplitN '<' 3 rule
          if tri.length ≠ 2 then Except.error WErr.wrongTagFormat else Except.ok tri
        else
          let tri := goSplitN '>' 3 rule
          if tri.length > 2 then Except.error WErr.wrongTagFormat else Except.ok tri
      match triE with
      | Except.error e => Except.error e
      | Except.ok tri =>
        let psvsE : Except WErr (GoString × GoString) :=
          if rev then
            match tri with
            | t0 :: t1 :: _ => Except.ok (trimSpaces t0, trimSpaces t1)
            | _ => Except.error WErr.indexPanic
          else
            Except.ok (trimSpaces (tri.headD []),
              if tri.length > 1 then trimSpaces (tri.getD 1 []) else gs "*")
        match psvsE with
        | Except.error e => Except.error e
        | Except.ok (ps, vs) =>
          if ps.isEmpty then Except.error WErr.noPredicate
          else
            let p := c.toIRIFn ps
            if vs.isEmpty || (vs = gs "*" && !fld.isEmptyStruct) then
              Except.ok (some (Rule.save p rev opt))
            else
              Except.ok (some (Rule.constraint p (c.toIRIFn vs) rev))

/-- Embedding of the rules map `fieldRules` (dotted field path to rule). -/
abbrev RulesMap := List (GoString × Rule)

mutual
/-- Embedding of `Config.rulesForStructTo`: walk the struct fields, recurse
into anonymous embeddings with a dotted path, and record each parsed
rule under `pref+name`.  Anonymous fields must hold structs
(`anonFieldType`); the anonymous-field check inspects the type, which the
embedding reads off the stored value. -/
def rulesForStructTo (c : SchemaConfig) (out : RulesMap) (pref : GoString) :
    List (GoField × FieldVal) → Except WErr RulesMap
  | [] => Except.ok out
  | (f, v) :: rest =>
    if f.anonymous then
      match v with
      | .record r =>
        match rulesForRecAux c out (pref ++ f.name ++ gs ".") r with
        | Except.error e => Except.error e
        | Except.ok out2 => rulesForStructTo c out2 pref rest
      | _ => Except.error WErr.anonNotSupported
    else
      match fieldRule c f with
      | Except.error e => Except.error e
      | Except.ok none => rulesForStructTo c out pref rest
      | Except.ok (some r) =>
        rulesForStructTo c (mapInsert out (pref ++ f.name) r) pref rest

/-- Anonymous-embedding step of `rulesForStructTo`: descend into the nested
struct's fields. -/
def rulesForRecAux (c : SchemaConfig) (out : RulesMap) (pref : GoString) :
    Record → Except WErr RulesMap
  | .mk _ fs => rulesForStructTo c out pref fs
end

/-- Embedding of `Config.rulesFor` (the per-type cache is semantically
transparent and not modelled). -/
def rulesForRec (c : SchemaConfig) (r : Record) : Except WErr RulesMap :=
  rulesForStructTo c [] [] r.fields

mutual
/-- Embedding of `schema.isZero`: compare the value with its type's zero
value.  Zero of the quad-value types is the empty string or `0`; a struct is
zero when all its fields are.  Go would panic comparing slice values, and
`isZero` is never applied to one on the claim-relevant paths; the embedding
returns `false` there. -/
def isZeroFV : FieldVal → Bool
  | .qval (.iri s) => s.isEmpty
  | .qval (.bnode s) => s.isEmpty
  | .qval (.str s) => s.isEmpty
  | .qval (.int n) => n = 0
  | .gostr s => s.isEmpty
  | .record r => isZeroRec r
  | .slice _ => false
  | .unit => true

/-- A struct value is zero when all its fields are. -/
def isZeroRec : Record → Bool
  | .mk _ fs => isZeroFields fs

/-- All field values of a struct are zero. -/
def isZeroFields : List (GoField × FieldVal) → Bool
  | [] => true
  | (_, v) :: rest => isZeroFV v && isZeroFields rest
end

/-- Embedding of `quad.AsValue` on the modelled field values: quad values
pass through and Go strings become `quad.String`; structs, slices and the
empty struct are not quad values. -/
def asValue : FieldVal → Option QuadValue
  | .qval v => some v
  | .gostr s => some (.str s)
  | _ => none

/-- First pass of `Config.idFor`: scan the fields in order for one whose rule
is `idRule` and convert its value (`quad.IRI` gets the IRI conversion mode
applied, `quad.BNode` is kept, a Go string goes through `toIRI`, anything
else is an error); `none` when no field has the identity rule. -/
def idForFirst (c : SchemaConfig) (rules : RulesMap) (pref : GoString) :
    List (GoField × FieldVal) → Option (Except WErr (Option QuadValue))
  | [] => none
  | (f, v) :: rest =>
    match mapLookup rules (pref ++ f.name) with
    | some Rule.id =>
      some (match v with
        | .qval (.iri s) => Except.ok (some (.iri (c.iriFn s)))
        | .qval (.bnode s) => Except.ok (some (.bnode s))
        | .gostr s => Except.ok (some (.iri (c.toIRIFn s)))
        | _ => Except.error WErr.unsupportedIdType)
    | _ => idForFirst c rules pref rest

mutual
/-- Embedding of `Config.idFor`: the first pass returns on the first
identity-ruled field; when none exists and the struct has anonymous fields,
a second pass recurses into the anonymous embeddings. -/
def idForRec (c : SchemaConfig) (rules : RulesMap) (pref : GoString)
    (r : Record) : Except WErr (Option QuadValue) :=
  match r with
  | .mk _ fs =>
    match idForFirst c rules pref fs with
    | some res => res
    | none =>
      if fs.any (fun fv => fv.1.anonymous) then idForSecond c rules pref fs
      else Except.ok none

/-- Second pass of `Config.idFor` over the anonymous fields. -/
def idForSecond (c : SchemaConfig) (rules : RulesMap) (pref : GoString) :
    List (GoField × FieldVal) → Except WErr (Option QuadValue)
  | [] => Except.ok none
  | (f, v) :: rest =>
    if f.anonymous then
      match v with
      | .record r =>
        match idForRec c rules (pref ++ f.name ++ gs ".") r with
        | Except.error e => Except.error e
        | Except.ok (some i) => Except.ok (some i)
        | Except.ok none => idForSecond c rules pref rest
      | _ => Except.error WErr.reflectMismatch
    else idForSecond c rules pref rest
end

/-- The type-membership quad `writeValueAs` emits first when the struct's
type is registered (`typeToIRI` lookup non-empty). -/
def typeQuadFor (c : SchemaConfig) (id : QuadValue) (tn : GoString) :
    List Quad :=
  let i := (mapLookup c.typeToIRI tn).getD []
  if i.isEmpty then []
  else [⟨id, .iri (c.iriFn iriType), .iri (c.iriFn i), c.label⟩]

/-- The quad `(s, pred, o)` written for one value: subject `id` and object
`targ`, swapped when the rule is reversed (`s, o = o, s`). -/
def dirQuad (c : SchemaConfig) (id : QuadValue) (pred : QuadValue)
    (targ : QuadValue) (rev : Bool) : Quad :=
  if rev then ⟨targ, pred, id, c.label⟩ else ⟨id, pred, targ, c.label⟩

/-- Sequencing of two write steps against the accumulating writer: when the
first step errored, its quads stand and the error aborts the walk (the
second step's quads are never written); otherwise both steps' quads
accumulate and the second step's outcome stands. -/
def seqW (a b : List Quad × Option WErr) : List Quad × Option WErr :=
  match a with
  | (qs, some e) => (qs, some e)
  | (qs, none) => (qs ++ b.1, b.2)

mutual
/-- Embedding of `Config.writeValueAs`: write the type-membership quad when
the struct's type is registered, then process the fields in order.  The quad
writer is embedded as the returned list of quads (writes never fail), paired
with the error that aborted the walk, if any. -/
def wValueAs (c : SchemaConfig) (id : QuadValue) (pref : GoString)
    (rules : RulesMap) (r : Record) : List Quad × Option WErr :=
  match r with
  | .mk tn fs =>
    match wFields c id pref rules fs with
    | (qs, e) => (typeQuadFor c id tn ++ qs, e)

/-- The field loop of `Config.writeValueAs`: anonymous fields recurse with a
dotted path; a constraint rule writes its fixed quad; a save rule on a slice
field writes one quad per element, while on a scalar field a zero value of a
required (non-`Opt`) rule aborts with `ErrReqFieldNotSet` and otherwise the
single value is written; fields with no rule or the identity rule write
nothing. -/
def wFields (c : SchemaConfig) (id : QuadValue) (pref : GoString)
    (rules : RulesMap) : List (GoField × FieldVal) → List Quad × Option WErr
  | [] => ([], none)
  | (f, v) :: rest =>
    seqW
      (if f.anonymous then
        match v with
        | .record r => wValueAs c id (pref ++ f.name ++ gs ".") rules r
        | _ => ([], some WErr.reflectMismatch)
      else
        match mapLookup rules (pref ++ f.name) with
        | some (Rule.constraint p val rev) =>
          ([dirQuad c id (.iri p) (.iri val) rev], none)
        | some (Rule.save p rev opt) =>
          if f.isSlice then
            match v with
            | .slice elems => wSliceElems c id (QuadValue.iri p) rev elems
            | _ => ([], some WErr.reflectMismatch)
          else
            if !opt && isZeroFV v then
              ([], some (WErr.reqFieldNotSet f.name))
            else wOneValReflect c id (QuadValue.iri p) v rev
        | _ => ([], none))
      (wFields c id pref rules rest)

/-- The per-element loop of the slice branch of `Config.writeValueAs`. -/
def wSliceElems (c : SchemaConfig) (id : QuadValue) (p : QuadValue)
    (rev : Bool) : List FieldVal → List Quad × Option WErr
  | [] => ([], none)
  | e :: es =>
    seqW (wOneValReflect c id p e rev) (wSliceElems c id p rev es)

/-- Embedding of `Config.writeOneValReflect`: a zero value is silently
skipped; a value convertible by `quad.AsValue` is written as one quad (with
subject and object swapped for a reverse rule); a nested struct first goes
through `WriteAsQuads` and its returned identifier becomes the quad's
target; anything else is an unsupported type. -/
def wOneValReflect (c : SchemaConfig) (id : QuadValue) (pred : QuadValue)
    (fv : FieldVal) (rev : Bool) : List Quad × Option WErr :=
  if isZeroFV fv then ([], none)
  else
    match asValue fv with
    | some targ => ([dirQuad c id pred targ rev], none)
    | none =>
      match fv with
      | .record r =>
        match wAsQuadsRec c r with
        | (qs, Except.error e) => (qs, some e)
        | (qs, Except.ok sid) => (qs ++ [dirQuad c id pred sid rev], none)
      | _ => ([], some WErr.unsupportedType)

/-- Embedding of the struct case of `Config.WriteAsQuads`: derive the rules
(an empty rule set is an error), extract or generate the identity, and write
the value; on success the identity is returned.  The body of `writeValueAs`
is inlined (type quad, then the field loop) so that the recursion through
nested records stays structural. -/
def wAsQuadsRec (c : SchemaConfig) (r : Record) :
    List Quad × Except WErr QuadValue :=
  match r with
  | .mk tn fs =>
    match rulesForStructTo c [] [] fs with
    | Except.error _ => ([], Except.error WErr.cantLoadRules)
    | Except.ok rules =>
      if rules.isEmpty then ([], Except.error WErr.noRules)
      else
        match idForRec c rules [] (.mk tn fs) with
        | Except.error e => ([], Except.error e)
        | Except.ok ido =>
          let id := match ido with
            | some v => v
            | none => c.genID (.mk tn fs)
          match wFields c id [] rules fs with
          | (qs, some e) => (typeQuadFor c id tn ++ qs, Except.error e)
          | (qs, none) => (typeQuadFor c id tn ++ qs, Except.ok id)
end

/-- Embedding of `Config.WriteAsQuads`: an argument that already implements
`quad.Value` is returned unchanged with nothing written; a struct goes
through rule derivation, identity extraction and the field walk. -/
def writeAsQuads (c : SchemaConfig) (o : WObj) :
    List Quad × Except WErr QuadValue :=
  match o with
  | .val v => ([], Except.ok v)
  | .record r => wAsQuadsRec c r

/-- Errors of the embedded load path (`errRequiredFieldIsMissing`,
`errNotFound`, a conversion failure, a context cancellation). -/
inductive LoadErr where
  | requiredFieldIsMissing
  | notFound
  | conversion
  | canceled
deriving DecidableEq, Repr

/-- Embedding of the merged tag multimap `mo` harvested from one iterator
result (tag name to list of bound values). -/
abbrev TagMap := List (GoString × List QuadValue)

/-- Read of the multimap (`m[name]`; a missing key reads as an empty list,
as in Go). -/
def tagLookup (m : TagMap) (k : GoString) : List QuadValue :=
  (mapLookup m k).getD []

/-- Embedding of the required-field check at the top of
`Config.loadToValue`: when the depth limit is not yet reached, a field whose
rule is a non-optional save rule and whose tag has no bound values makes the
record fail with `errRequiredFieldIsMissing`. -/
def requiredFieldMissingCheck (fields : RulesMap) (depth : Int) (m : TagMap) :
    Bool :=
  depth != 0 && fields.any (fun kv =>
    match kv.2 with
    | Rule.save _ _ false => (tagLookup m kv.1).isEmpty
    | _ => false)

/-- Embedding of `Config.loadToValue` with the field-conversion loop
abstracted as its outcome `conv`: the function first runs the required-field
check and then the conversion loop.  (The loop itself never yields
`errRequiredFieldIsMissing`: a nested load that fails with it is skipped by
the `continue` in the recursive branch, and all other failures are wrapped
into distinct errors.) -/
def loadToValueM (fields : RulesMap) (depth : Int) (m : TagMap)
    (conv : Option LoadErr) : Option LoadErr :=
  if requiredFieldMissingCheck fields depth m then
    some LoadErr.requiredFieldIsMissing
  else conv

/-- The three destination shapes `Config.loadIteratorToDepth` distinguishes
(`dst.Kind()`): a single struct, a slice, or a channel. -/
inductive LoadDest where
  | single
  | slice
  | chanl
deriving DecidableEq, Repr

/-- One result pulled from the iterator: the merged tag multimap, plus the
abstracted outcome of the field-conversion part of `loadToValue` for this
record. -/
structure RecOutcome where
  tags : TagMap
  conv : Option LoadErr

/-- Fallback of `Config.loadIteratorToDepth` once a single-destination loop
ends without a match: when an explicit id set was given (`list` non-nil and
not the all-iterator) and it intersects the store's nodes, the object exists
but failed the type or required-field constraints
(`errRequiredFieldIsMissing`); otherwise `errNotFound`. -/
def singleFallback (listNotAll listHasNode : Bool) : LoadErr :=
  if listNotAll && listHasNode then LoadErr.requiredFieldIsMissing
  else LoadErr.notFound

/-- Embedding of the result loop of `Config.loadIteratorToDepth`: each
iterator result yields a merged tag multimap (an empty one is skipped);
`errRequiredFieldIsMissing` from `loadToValue` is returned for a single
destination and skips the record for a slice or channel destination; any
other error is returned; a success is appended or sent for a slice or
channel destination (counted in the first component) and ends the load for
a single one.  When the loop drains, a slice or channel destination
succeeds and a single destination reports the fallback error. -/
def loadLoop (fields : RulesMap) (depth : Int) (dst : LoadDest)
    (fallback : LoadErr) : List RecOutcome → Nat × Option LoadErr
  | [] => (0, if dst = LoadDest.single then some fallback else none)
  | r :: rest =>
    if r.tags.isEmpty then loadLoop fields depth dst fallback rest
    else
      match loadToValueM fields depth r.tags r.conv with
      | some LoadErr.requiredFieldIsMissing =>
        if dst = LoadDest.single then (0, some LoadErr.requiredFieldIsMissing)
        else loadLoop fields depth dst fallback rest
      | some e => (0, some e)
      | none =>
        if dst = LoadDest.single then (1, none)
        else
          let (n, e) := loadLoop fields depth dst fallback rest
          (n + 1, e)

/-- Modelled from the spec: the iterator variants the claims exercise
(`Fixed`, binary `And`, `Count`); the `graph/iterator` package is absent
from the source tree (only its test `TestCount` is present).  `Fixed` holds
the given pre-fetched values; `And` iterates a primary child and
contains-checks the other; `Count` emits the single value `Int(n)` where `n`
is the size of the child's materialized result set.  Each node carries the
tag names attached via its `Tagger`. -/
inductive Iter where
  | fixed (tags : List GoString) (vs : List QuadValue)
  | and2 (tags : List GoString) (it1 it2 : Iter)
  | cnt (tags : List GoString) (child : Iter)

mutual
/-- Modelled from the spec: the multiset of results a full drain of the
iterator emits (`Next` until failure).  `Fixed` emits its values; `And`
emits the primary child's results that the other child contains;
`Count` emits exactly one result, the integer size of the child's
materialized result set. -/
def iterResults : Iter → List QuadValue
  | .fixed _ vs => vs
  | .and2 _ it1 it2 => (iterResults it1).filter (fun x => iterContains it2 x)
  | .cnt _ child => [QuadValue.int (iterResults child).length]

/-- Modelled from the spec: the `Contains` check.  `Fixed` compares under
key equality (pre-fetched values compare by value); `And` requires all
children to contain the value; `Count` contains exactly its one emitted
integer. -/
def iterContains : Iter → QuadValue → Bool
  | .fixed _ vs, x => vs.any (fun y => y = x)
  | .and2 _ it1 it2, x => iterContains it1 x && iterContains it2 x
  | .cnt _ child, x => x = QuadValue.int (iterResults child).length
end

/-- Modelled from the spec: `TagResults` for a current result `r` — the
iterator's own tags bind to `r`, and a conjunction merges the tag bindings
of both children (whose current results coincide with `r` when the
conjunction emits `r`). -/
def iterTagResults : Iter → QuadValue → List (GoString × QuadValue)
  | .fixed ts _, r => ts.map (fun t => (t, r))
  | .and2 ts it1 it2, r =>
    ts.map (fun t => (t, r)) ++ iterTagResults it1 r ++ iterTagResults it2 r
  | .cnt ts _, r => ts.map (fun t => (t, r))

/-- Outcome of the Ragel-generated state machine on an input: acceptance
with the quad assembled by the actions, an error transition at rune position
`p` (which triggers the `Error` action), or running off the machine without
either (the unreachable trailing `return` of `Parse`). -/
inductive MachineOutcome where
  | accept (q : Quad)
  | failAt (p : Nat)
  | fallThrough

/-- The errors `Parse` reports: `quad.ErrInvalid` decorated with the
offending rune and its position, bare `quad.ErrInvalid`, or
`quad.ErrIncomplete`. -/
inductive ParseErr where
  | invalid (r : Char) (pos : Nat)
  | invalidBare
  | incomplete
deriving DecidableEq, Repr

/-- Embedding of `nquads.Parse`: run the machine (modelled from the spec as
a function, the grammar file `nquads.rl` being absent) over the statement's
runes and translate its outcome exactly as the `Error` action and the
trailing return do: an error transition at `p` inside the input reports the
rune and position under `ErrInvalid`; an error transition at end of input
reports `ErrIncomplete`; falling through returns bare `ErrInvalid`. -/
def nqParse (machine : List Char → MachineOutcome) (statement : List Char) :
    Except ParseErr Quad :=
  match machine statement with
  | .accept q => Except.ok q
  | .failAt p =>
    if h : p < statement.length then
      Except.error (ParseErr.invalid (statement.get ⟨p, h⟩) p)
    else Except.error ParseErr.incomplete
  | .fallThrough => Except.error ParseErr.invalidBare

/-- The two close calls `Handle.Close` makes, in the order made. -/
inductive CloseEvent where
  | writerClosed
  | storeClosed
deriving DecidableEq, Repr

/-- Embedding of `cayley.Handle` (the pre-go1.9 struct in the source):
the owned writer and store, each with the error its `Close` returns. -/
structure GoHandle where
  writerCloseErr : Option GoString
  storeCloseErr : Option GoString

/-- The writer's `Close`: records its event and yields its error. -/
def closeWriter (h : GoHandle) : CloseEvent × Option GoString :=
  (CloseEvent.writerClosed, h.writerCloseErr)

/-- The store's `Close`: records its event and yields its error. -/
def closeStore (h : GoHandle) : CloseEvent × Option GoString :=
  (CloseEvent.storeClosed, h.storeCloseErr)

/-- Embedding of `Handle.Close`: close the writer, keep its error, close the
store (its error is discarded), return the writer's error.  The event list
records the order of the two close calls. -/
def handleClose (h : GoHandle) : List CloseEvent × Option GoString :=
  let (e1, err) := closeWriter h
  let (e2, _) := closeStore h
  ([e1, e2], err)

/-- A schema configuration with native IRI mode, no registered types and no
generator hooks, used by the concrete scenarios. -/
def cfgNative : SchemaConfig :=
  { iris := .native, label := none, generateID := none,
    globalGenerateID := none, randomBNodeName := gs "rand1",
    shortFn := fun s => s, fullFn := fun s => s, typeToIRI := [] }

/-- The five-element fixed iterator of `TestCount`:
`NewFixed(PreFetched(String("a")), …, PreFetched(String("e")))`. -/
def fixedABCDE : Iter :=
  .fixed [] [.str (gs "a"), .str (gs "b"), .str (gs "c"), .str (gs "d"),
    .str (gs "e")]

/-- The two-element fixed iterator of `TestCount`. -/
def fixedBD : Iter := .fixed [] [.str (gs "b"), .str (gs "d")]

/-- C1: the Count iterator over any iterator emits exactly one result, the
integer cardinality of the child's materialized result set, and then fails
to advance; its Contains accepts exactly that integer.  Concretely,
`Count(Fixed(a,b,c,d,e))` emits `Int(5)` and then terminates, contains
`Int(5)` and does not contain `Int(3)`. -/
theorem count_emits_cardinality :
    (∀ ts it, iterResults (Iter.cnt ts it) =
      [QuadValue.int (iterResults it).length]) ∧
    (∀ ts it v, iterContains (Iter.cnt ts it) v =
      decide (v = QuadValue.int (iterResults it).length)) ∧
    iterResults (Iter.cnt [] fixedABCDE) = [QuadValue.int 5] ∧
    iterContains (Iter.cnt [] fixedABCDE) (QuadValue.int 5) = true ∧
    iterContains (Iter.cnt [] fixedABCDE) (QuadValue.int 3) = false :=
  ⟨fun _ _ => rfl, fun _ _ _ => rfl, by decide, by decide, by decide⟩

/-- C2: the And iterator emits exactly the elements of the intersection of
its children's result sets (primary child's results that the other child
contains, under key equality), and the tag bindings of both children are
merged into each result.  Concretely, `Count(And(Fixed(a..e), Fixed(b,d)))`
emits `Int(2)`, and a tag added to the Count iterator binds to `Int(2)`. -/
theorem and_intersects_and_merges_tags :
    (∀ ts it1 it2 x, x ∈ iterResults (Iter.and2 ts it1 it2) ↔
      (x ∈ iterResults it1 ∧ iterContains it2 x = true)) ∧
    (∀ ts it1 it2 r kv, kv ∈ iterTagResults it1 r →
      kv ∈ iterTagResults (Iter.and2 ts it1 it2) r) ∧
    (∀ ts it1 it2 r kv, kv ∈ iterTagResults it2 r →
      kv ∈ iterTagResults (Iter.and2 ts it1 it2) r) ∧
    iterResults (Iter.cnt [] (Iter.and2 [] fixedABCDE fixedBD)) =
      [QuadValue.int 2] ∧
    iterContains (Iter.cnt [] (Iter.and2 [] fixedABCDE fixedBD))
      (QuadValue.int 2) = true ∧
    iterContains (Iter.cnt [] (Iter.and2 [] fixedABCDE fixedBD))
      (QuadValue.int 5) = false ∧
    iterTagResults (Iter.cnt [gs "count"] (Iter.and2 [] fixedABCDE fixedBD))
      (QuadValue.int 2) = [(gs "count", QuadValue.int 2)] := by
  refine ⟨?_, ?_, ?_, by decide, by decide, by decide, by decide⟩
  · intro ts it1 it2 x
    simp [iterResults, List.mem_filter]
  · intro ts it1 it2 r kv hkv
    simp only [iterTagResults, List.mem_append]
    exact Or.inl (Or.inr hkv)
  · intro ts it1 it2 r kv hkv
    simp only [iterTagResults, List.mem_append]
    exact Or.inr hkv

/-- Witness for C2: the tag-merging parts applied to a concrete conjunction
of two fixed iterators, one tagged on each side. -/
theorem and_intersects_and_merges_tags_witness :
    (gs "t1", QuadValue.int 0) ∈
      iterTagResults (Iter.and2 [] (Iter.fixed [gs "t1"] []) fixedBD)
        (QuadValue.int 0) ∧
    (gs "t2", QuadValue.int 0) ∈
      iterTagResults (Iter.and2 [] fixedBD (Iter.fixed [gs "t2"] []))
        (QuadValue.int 0) :=
  ⟨and_intersects_and_merges_tags.2.1 [] (Iter.fixed [gs "t1"] []) fixedBD
      (QuadValue.int 0) (gs "t1", QuadValue.int 0) (by decide),
    and_intersects_and_merges_tags.2.2.1 [] fixedBD (Iter.fixed [gs "t2"] [])
      (QuadValue.int 0) (gs "t2", QuadValue.int 0) (by decide)⟩

/-- C7: when a record fails its load because a required field has no bound
value, a slice or channel destination skips the record and the load
continues with the remaining results, while a single-record destination
returns `errRequiredFieldIsMissing` to the caller. -/
theorem load_required_missing_handling (fields : RulesMap) (depth : Int)
    (fallback : LoadErr) (r : RecOutcome) (rest : List RecOutcome)
    (hne : r.tags.isEmpty = false)
    (hmiss : requiredFieldMissingCheck fields depth r.tags = true) :
    loadLoop fields depth LoadDest.slice fallback (r :: rest) =
      loadLoop fields depth LoadDest.slice fallback rest ∧
    loadLoop fields depth LoadDest.chanl fallback (r :: rest) =
      loadLoop fields depth LoadDest.chanl fallback rest ∧
    loadLoop fields depth LoadDest.single fallback (r :: rest) =
      (0, some LoadErr.requiredFieldIsMissing) := by
  refine ⟨?_, ?_, ?_⟩ <;>
    simp [loadLoop, loadToValueM, hne, hmiss]

/-- Witness for C7: a record whose single required field `name` has no
binding is skipped by a slice load and surfaces the error for a single
load. -/
theorem load_required_missing_handling_witness :
    ((List.isEmpty [((gs "other"), [QuadValue.int 1])] = false) ∧
      requiredFieldMissingCheck [(gs "name", Rule.save (gs "name") false false)]
        (-1) [((gs "other"), [QuadValue.int 1])] = true) ∧
    loadLoop [(gs "name", Rule.save (gs "name") false false)] (-1)
      LoadDest.single LoadErr.notFound
      [⟨[((gs "other"), [QuadValue.int 1])], none⟩] =
      (0, some LoadErr.requiredFieldIsMissing) :=
  ⟨⟨by decide, by decide⟩,
    (load_required_missing_handling
      [(gs "name", Rule.save (gs "name") false false)] (-1) LoadErr.notFound
      ⟨[((gs "other"), [QuadValue.int 1])], none⟩ [] (by decide)
      (by decide)).2.2⟩

/-- C8: `Parse` yields either a quad with no error or an error; an error
transition inside the input is reported as `ErrInvalid` decorated with the
offending rune and its position, and an error transition at end of input is
reported as `ErrIncomplete`. -/
theorem nquads_parse_error_reporting (machine : List Char → MachineOutcome)
    (data : List Char) :
    ((∃ q, nqParse machine data = Except.ok q) ∨
      (∃ e, nqParse machine data = Except.error e)) ∧
    (∀ q, machine data = MachineOutcome.accept q →
      nqParse machine data = Except.ok q) ∧
    (∀ p (h : p < data.length), machine data = MachineOutcome.failAt p →
      nqParse machine data =
        Except.error (ParseErr.invalid (data.get ⟨p, h⟩) p)) ∧
    (∀ p, data.length ≤ p → machine data = MachineOutcome.failAt p →
      nqParse machine data = Except.error ParseErr.incomplete) := by
  refine ⟨?_, ?_, ?_, ?_⟩
  · cases h : machine data with
    | accept q => exact Or.inl ⟨q, by simp [nqParse, h]⟩
    | failAt p =>
      by_cases hp : p < data.length
      · exact Or.inr ⟨ParseErr.invalid (data.get ⟨p, hp⟩) p,
          by simp [nqParse, h, hp]⟩
      · exact Or.inr ⟨ParseErr.incomplete, by simp [nqParse, h, hp]⟩
    | fallThrough => exact Or.inr ⟨ParseErr.invalidBare, by simp [nqParse, h]⟩
  · intro q h
    simp [nqParse, h]
  · intro p hp h
    simp [nqParse, h, hp]
  · intro p hp h
    have : ¬ p < data.length := by omega
    simp [nqParse, h, this]

/-- Witness for C8: a machine failing at position 0 of the one-rune input
`x` reports the rune and position; one failing at the end of the input
reports incompleteness. -/
theorem nquads_parse_error_reporting_witness :
    nqParse (fun _ => MachineOutcome.failAt 0) [Char.ofNat 120] =
      Except.error (ParseErr.invalid (Char.ofNat 120) 0) ∧
    nqParse (fun _ => MachineOutcome.failAt 1) [Char.ofNat 120] =
      Except.error ParseErr.incomplete := by
  constructor
  · have h := (nquads_parse_error_reporting
      (fun _ => MachineOutcome.failAt 0) [Char.ofNat 120]).2.2.1 0
      (by decide) rfl
    simpa using h
  · exact (nquads_parse_error_reporting
      (fun _ => MachineOutcome.failAt 1) [Char.ofNat 120]).2.2.2 1
      (by decide) rfl

/-- C9: `Handle.Close` closes the writer first and the store second, and
returns the error produced by closing the writer (the store's close error is
discarded). -/
theorem handle_close_order_and_error (h : GoHandle) :
    handleClose h =
      ([CloseEvent.writerClosed, CloseEvent.storeClosed], h.writerCloseErr) :=
  rfl

/-- C10: `WriteAsQuads` on an object that already implements `quad.Value`
returns that value unchanged as the identifier, succeeds, and writes no
quads. -/
theorem writeAsQuads_value_passthrough (c : SchemaConfig) (v : QuadValue) :
    writeAsQuads c (WObj.val v) = ([], Except.ok v) :=
  rfl

/-- A slice-typed field annotated with a bare predicate and no modifiers. -/
def fldFollowsDefault : GoField :=
  { name := gs "Follows", quadTag := gs "follows", jsonTag := gs "",
    isSlice := true, isEmptyStruct := false, anonymous := false }

set_option maxHeartbeats 2000000 in
/-- C6: a save rule is required when the annotation carries the
`req`/`required` modifier regardless of other modifiers; otherwise it is
optional when it carries `opt`/`optional`; otherwise slice fields default to
optional and all other fields to required.  (The modifiers are the
comma-separated entries of the `quad` tag after the rule text.) -/
theorem save_rule_optionality (c : SchemaConfig) (fld : GoField)
    (p : GoString) (rv op : Bool)
    (h : fieldRule c fld = Except.ok (some (Rule.save p rv op))) :
    op =
      (if (goSplit ',' fld.quadTag).tail.any
            (fun s => s = gs "req" || s = gs "required") then false
       else if (goSplit ',' fld.quadTag).tail.any
            (fun s => s = gs "opt" || s = gs "optional") then true
       else fld.isSlice) := by
  simp only [fieldRule] at h
  cases hR : (goSplit ',' fld.quadTag).tail.any
      (fun s => s = gs "req" || s = gs "required") <;>
  cases hO : (goSplit ',' fld.quadTag).tail.any
      (fun s => s = gs "opt" || s = gs "optional") <;>
  cases hS : fld.isSlice <;>
    simp only [hR, hO, hS] at h ⊢ <;>
    (repeat' split at h) <;> simp_all

/-- Witness for C6: an unadorned slice field parses to an optional save
rule, matching the modifier computation. -/
theorem save_rule_optionality_witness :
    fieldRule cfgNative fldFollowsDefault =
      Except.ok (some (Rule.save (gs "follows") false true)) ∧
    (true : Bool) =
      (if (goSplit ',' fldFollowsDefault.quadTag).tail.any
            (fun s => s = gs "req" || s = gs "required") then false
       else if (goSplit ',' fldFollowsDefault.quadTag).tail.any
            (fun s => s = gs "opt" || s = gs "optional") then true
       else fldFollowsDefault.isSlice) :=
  ⟨by decide,
    save_rule_optionality cfgNative fldFollowsDefault (gs "follows") false true
      (by decide)⟩

/-- C3: on a successful `WriteAsQuads` of a struct, the returned identifier
is the converted value of the `@id`-ruled field when the struct has one, and
otherwise the fresh node produced by `genID` (the configured generator,
falling back to the package hook and then to a random blank node); when the
struct's type is registered, the type quad `(id, rdf:type, registered-IRI)`
is the first quad written. -/
theorem writeAsQuads_identity_and_type_quad (c : SchemaConfig) (r : Record)
    (qs : List Quad) (idv : QuadValue)
    (h : writeAsQuads c (WObj.record r) = (qs, Except.ok idv)) :
    (∀ rules v, rulesForRec c r = Except.ok rules →
      idForRec c rules [] r = Except.ok (some v) → idv = v) ∧
    (∀ rules, rulesForRec c r = Except.ok rules →
      idForRec c rules [] r = Except.ok none → idv = c.genID r) ∧
    (∀ t, mapLookup c.typeToIRI r.typeName = some t → t.isEmpty = false →
      qs.head? =
        some ⟨idv, .iri (c.iriFn iriType), .iri (c.iriFn t), c.label⟩) ∧
    (c.generateID = none → c.globalGenerateID = none →
      c.genID r = QuadValue.bnode c.randomBNodeName) := by
  obtain ⟨tn, fs⟩ := r
  simp only [writeAsQuads, wAsQuadsRec] at h
  cases hrr : rulesForStructTo c [] [] fs with
  | error e => rw [hrr] at h; simp at h
  | ok rules0 =>
    rw [hrr] at h
    by_cases hemp : rules0.isEmpty = true
    · simp [hemp] at h
    · simp only [hemp, if_false, Bool.false_eq_true] at h
      cases hid : idForRec c rules0 [] (Record.mk tn fs) with
      | error e => rw [hid] at h; simp at h
      | ok ido =>
        rw [hid] at h
        cases ido with
        | some v0 =>
          simp only [] at h
          cases hw : wFields c v0 [] rules0 fs with
          | mk qs' eo =>
            rw [hw] at h
            cases eo with
            | some e => simp at h
            | none =>
              simp only [Prod.mk.injEq, Except.ok.injEq] at h
              obtain ⟨hqs, hidv⟩ := h
              subst hidv
              subst hqs
              refine ⟨?_, ?_, ?_, ?_⟩
              · intro rules v hrules hid2
                simp only [rulesForRec, Record.fields, hrr,
                  Except.ok.injEq] at hrules
                subst hrules
                rw [hid] at hid2
                simp only [Except.ok.injEq, Option.some.injEq] at hid2
                exact hid2
              · intro rules hrules hid2
                simp only [rulesForRec, Record.fields, hrr,
                  Except.ok.injEq] at hrules
                subst hrules
                rw [hid] at hid2
                simp at hid2
              · intro t ht htne
                simp only [Record.typeName] at ht
                simp [typeQuadFor, ht, htne]
              · intro hg hgg
                simp [SchemaConfig.genID, hg, hgg]
        | none =>
          simp only [] at h
          cases hw : wFields c (c.genID (Record.mk tn fs)) [] rules0 fs with
          | mk qs' eo =>
            rw [hw] at h
            cases eo with
            | some e => simp at h
            | none =>
              simp only [Prod.mk.injEq, Except.ok.injEq] at h
              obtain ⟨hqs, hidv⟩ := h
              subst hidv
              subst hqs
              refine ⟨?_, ?_, ?_, ?_⟩
              · intro rules v hrules hid2
                simp only [rulesForRec, Record.fields, hrr,
                  Except.ok.injEq] at hrules
                subst hrules
                rw [hid] at hid2
                simp at hid2
              · intro rules hrules hid2
                rfl
              · intro t ht htne
                simp only [Record.typeName] at ht
                simp [typeQuadFor, ht, htne]
              · intro hg hgg
                simp [SchemaConfig.genID, hg, hgg]

/-- The configuration of the concrete write scenario: native IRIs, type
`Person` registered as `ex:Person`. -/
def cfgPerson : SchemaConfig :=
  { cfgNative with typeToIRI := [(gs "Person", gs "ex:Person")] }

/-- An identity-annotated field. -/
def fldID : GoField :=
  { name := gs "ID", quadTag := gs "@id", jsonTag := gs "",
    isSlice := false, isEmptyStruct := false, anonymous := false }

/-- A scalar field saved under the `name` predicate. -/
def fldName : GoField :=
  { name := gs "Name", quadTag := gs "name", jsonTag := gs "",
    isSlice := false, isEmptyStruct := false, anonymous := false }

/-- The record `Person\x7bID: alice, Name: "Alice"\x7d`. -/
def recAlice : Record :=
  .mk (gs "Person")
    [(fldID, .qval (.iri (gs "alice"))), (fldName, .gostr (gs "Alice"))]

/-- Witness for C3: writing `recAlice` under `cfgPerson` returns the id
`alice` taken from the `@id` field and writes the type quad first. -/
theorem writeAsQuads_identity_and_type_quad_witness :
    writeAsQuads cfgPerson (WObj.record recAlice) =
      ([⟨.iri (gs "alice"), .iri (gs "rdf:type"), .iri (gs "ex:Person"), none⟩,
        ⟨.iri (gs "alice"), .iri (gs "name"), .str (gs "Alice"), none⟩],
        Except.ok (QuadValue.iri (gs "alice"))) ∧
    ([⟨.iri (gs "alice"), .iri (gs "rdf:type"), .iri (gs "ex:Person"), none⟩,
      ⟨.iri (gs "alice"), .iri (gs "name"), .str (gs "Alice"), none⟩] :
        List Quad).head? =
      some ⟨QuadValue.iri (gs "alice"), .iri (cfgPerson.iriFn iriType),
        .iri (cfgPerson.iriFn (gs "ex:Person")), cfgPerson.label⟩ :=
  ⟨by decide,
    (writeAsQuads_identity_and_type_quad cfgPerson recAlice
      [⟨.iri (gs "alice"), .iri (gs "rdf:type"), .iri (gs "ex:Person"), none⟩,
        ⟨.iri (gs "alice"), .iri (gs "name"), .str (gs "Alice"), none⟩]
      (QuadValue.iri (gs "alice")) (by decide)).2.2.1 (gs "ex:Person")
      (by decide) (by decide)⟩

/-- A slice field annotated `follows,required`. -/
def fldFollowsReq : GoField :=
  { name := gs "Follows", quadTag := gs "follows,required", jsonTag := gs "",
    isSlice := true, isEmptyStruct := false, anonymous := false }

/-- A record whose only field is a required slice holding its zero value
(the nil slice). -/
def recNilFollows : Record :=
  .mk (gs "Person2") [(fldFollowsReq, .slice [])]

/-- Counterexample for C4: a field whose rule is a required (non-optional)
save rule and whose value is its type's zero value does NOT make
`WriteAsQuads` fail when the field is slice-typed: the slice branch of
`writeValueAs` never performs the zero check, so the write succeeds (with a
generated blank-node id) instead of failing with `ErrReqFieldNotSet`. -/
theorem required_slice_zero_not_rejected :
    writeAsQuads cfgNative (WObj.record recNilFollows) =
      ([], Except.ok (QuadValue.bnode (gs "rand1"))) ∧
    (writeAsQuads cfgNative (WObj.record recNilFollows)).2 ≠
      Except.error (WErr.reqFieldNotSet (gs "Follows")) := by
  decide

/-- The processing of one field by the loop of `writeValueAs` (the head step
of `wFields`). -/
def wFieldStep (c : SchemaConfig) (id : QuadValue) (pref : GoString)
    (rules : RulesMap) (f : GoField) (v : FieldVal) :
    List Quad × Option WErr :=
  if f.anonymous then
    match v with
    | .record r => wValueAs c id (pref ++ f.name ++ gs ".") rules r
    | _ => ([], some WErr.reflectMismatch)
  else
    match mapLookup rules (pref ++ f.name) with
    | some (Rule.constraint p val rev) =>
      ([dirQuad c id (.iri p) (.iri val) rev], none)
    | some (Rule.save p rev opt) =>
      if f.isSlice then
        match v with
        | .slice elems => wSliceElems c id (QuadValue.iri p) rev elems
        | _ => ([], some WErr.reflectMismatch)
      else
        if !opt && isZeroFV v then ([], some (WErr.reqFieldNotSet f.name))
        else wOneValReflect c id (QuadValue.iri p) v rev
    | _ => ([], none)

set_option maxHeartbeats 1000000 in
/-- Unfolding of `wFields` on the empty field list. -/
theorem wFields_nil (c : SchemaConfig) (id : QuadValue) (pref : GoString)
    (rules : RulesMap) : wFields c id pref rules [] = ([], none) := by
  rw [wFields.eq_def]

set_option maxHeartbeats 1000000 in
/-- Unfolding of `wFields` on a non-empty field list: the head step followed
by the rest of the walk. -/
theorem wFields_cons (c : SchemaConfig) (id : QuadValue) (pref : GoString)
    (rules : RulesMap) (f : GoField) (v : FieldVal)
    (rest : List (GoField × FieldVal)) :
    wFields c id pref rules ((f, v) :: rest) =
      seqW (wFieldStep c id pref rules f v)
        (wFields c id pref rules rest) := by
  rw [wFields.eq_def]
  rfl

/-- Helper for C4: when a prefix of the field walk succeeds and is followed
by a non-slice field with a required (non-optional) save rule holding a zero
value, the walk stops at that field with `ErrReqFieldNotSet` naming it,
having written exactly the prefix's quads. -/
theorem wFields_stop_at_required (c : SchemaConfig) (id : QuadValue)
    (pref : GoString) (rules : RulesMap) (f : GoField) (v : FieldVal)
    (p : GoString) (rv : Bool) (rest : List (GoField × FieldVal))
    (hanon : f.anonymous = false)
    (hrule : mapLookup rules (pref ++ f.name) = some (Rule.save p rv false))
    (hslice : f.isSlice = false)
    (hzero : isZeroFV v = true) :
    ∀ (done : List (GoField × FieldVal)) (qs1 : List Quad),
      wFields c id pref rules done = (qs1, none) →
      wFields c id pref rules (done ++ (f, v) :: rest) =
        (qs1, some (WErr.reqFieldNotSet f.name)) := by
  have hstepf : wFieldStep c id pref rules f v =
      ([], some (WErr.reqFieldNotSet f.name)) := by
    simp [wFieldStep, hanon, hrule, hslice, hzero]
  intro done
  induction done with
  | nil =>
    intro qs1 hdone
    rw [wFields_nil] at hdone
    obtain ⟨hq, -⟩ := Prod.mk.injEq .. ▸ hdone
    subst hq
    rw [List.nil_append, wFields_cons, hstepf]
    simp [seqW]
  | cons hd tl ih =>
    obtain ⟨g, w⟩ := hd
    intro qs1 hdone
    rw [wFields_cons] at hdone
    cases hstep : wFieldStep c id pref rules g w with
    | mk qsa ea =>
      rw [hstep] at hdone
      cases ea with
      | some e => simp [seqW] at hdone
      | none =>
        cases hwt : wFields c id pref rules tl with
        | mk qsb eb =>
          rw [hwt] at hdone
          cases eb with
          | some e => simp [seqW] at hdone
          | none =>
            simp only [seqW, Prod.mk.injEq] at hdone
            obtain ⟨hq, -⟩ := hdone
            rw [List.cons_append, wFields_cons, hstep, ih qsb hwt]
            simp [seqW, hq]

/-- C4 amended (the original claim holds only for non-slice fields): when a
record's field walk reaches a non-slice field whose rule is a required
(non-optional) save rule and whose value is its type's zero value — the
preceding fields having written cleanly — `writeValueAs` fails with
`ErrReqFieldNotSet` naming that field, and no quad for that field is
written (the output holds exactly the type quad and the preceding fields'
quads).  For slice-typed fields the zero check is skipped, see the
counterexample. -/
theorem required_zero_scalar_rejected (c : SchemaConfig) (id : QuadValue)
    (pref : GoString) (rules : RulesMap) (tn : GoString)
    (done : List (GoField × FieldVal)) (f : GoField) (v : FieldVal)
    (p : GoString) (rv : Bool) (rest : List (GoField × FieldVal))
    (qs1 : List Quad)
    (hdone : wFields c id pref rules done = (qs1, none))
    (hanon : f.anonymous = false)
    (hrule : mapLookup rules (pref ++ f.name) = some (Rule.save p rv false))
    (hslice : f.isSlice = false)
    (hzero : isZeroFV v = true) :
    wValueAs c id pref rules (Record.mk tn (done ++ (f, v) :: rest)) =
      (typeQuadFor c id tn ++ qs1, some (WErr.reqFieldNotSet f.name)) := by
  have hmain := wFields_stop_at_required c id pref rules f v p rv rest
    hanon hrule hslice hzero done qs1 hdone
  simp only [wValueAs.eq_def, hmain]

/-- Witness for C4 amended: for `Person\x7bID: alice, Name: ""\x7d` the walk
fails with `ErrReqFieldNotSet` naming `Name`, writing no quad for it. -/
theorem required_zero_scalar_rejected_witness :
    wFields cfgNative (QuadValue.iri (gs "alice")) []
        [(gs "ID", Rule.id), (gs "Name", Rule.save (gs "name") false false)]
        [(fldID, FieldVal.qval (.iri (gs "alice")))] = ([], none) ∧
    wValueAs cfgNative (QuadValue.iri (gs "alice")) []
        [(gs "ID", Rule.id), (gs "Name", Rule.save (gs "name") false false)]
        (Record.mk (gs "Person")
          ([(fldID, FieldVal.qval (.iri (gs "alice")))] ++
            (fldName, FieldVal.gostr []) :: [])) =
      (typeQuadFor cfgNative (QuadValue.iri (gs "alice")) (gs "Person") ++ [],
        some (WErr.reqFieldNotSet (gs "Name"))) :=
  ⟨by decide,
    required_zero_scalar_rejected cfgNative (QuadValue.iri (gs "alice")) []
      [(gs "ID", Rule.id), (gs "Name", Rule.save (gs "name") false false)]
      (gs "Person") [(fldID, FieldVal.qval (.iri (gs "alice")))] fldName
      (FieldVal.gostr []) (gs "name") false [] []
      (by decide) (by decide) (by decide) (by decide) (by decide)⟩

/-- Containment distributes over append. -/
theorem goContains_append (sep : Char) (a b : GoString) :
    goContains sep (a ++ b) = (goContains sep a || goContains sep b) := by
  induction a with
  | nil => simp [goContains]
  | cons c r ih => simp [goContains, ih, Bool.or_assoc]

/-- A string free of the separator splits into itself. -/
theorem goSplit_of_not_contains (sep : Char) (s : GoString)
    (h : goContains sep s = false) : goSplit sep s = [s] := by
  induction s with
  | nil => rfl
  | cons c r ih =>
    simp only [goContains, Bool.or_eq_false_iff] at h
    obtain ⟨hc, hr⟩ := h
    simp only [goSplit, ih hr]
    rw [if_neg]
    simp only [decide_eq_false_iff_not] at hc
    exact hc

/-- `splitFirst` finds nothing in a string free of the separator. -/
theorem splitFirst_of_not_contains (sep : Char) (s : GoString)
    (h : goContains sep s = false) : splitFirst sep s = none := by
  induction s with
  | nil => rfl
  | cons c r ih =>
    simp only [goContains, Bool.or_eq_false_iff] at h
    obtain ⟨hc, hr⟩ := h
    simp only [decide_eq_false_iff_not] at hc
    simp [splitFirst, hc, ih hr]

/-- `splitFirst` splits at the first separator after a clean head. -/
theorem splitFirst_append (sep : Char) (a b : GoString)
    (h : goContains sep a = false) :
    splitFirst sep (a ++ sep :: b) = some (a, b) := by
  induction a with
  | nil => simp [splitFirst]
  | cons c r ih =>
    simp only [goContains, Bool.or_eq_false_iff] at h
    obtain ⟨hc, hr⟩ := h
    simp only [decide_eq_false_iff_not] at hc
    simp [splitFirst, hc, ih hr]

/-- A string with no spaces is unchanged by the left trim. -/
theorem trimLeft_of_no_space (s : GoString) (h : goContains ' ' s = false) :
    trimLeftSpaces s = s := by
  cases s with
  | nil => rfl
  | cons c r =>
    simp only [goContains, Bool.or_eq_false_iff] at h
    simp only [decide_eq_false_iff_not] at h
    simp [trimLeftSpaces, h.1]

/-- A string with no spaces is unchanged by the right trim. -/
theorem trimRight_of_no_space (s : GoString) (h : goContains ' ' s = false) :
    trimRightSpaces s = s := by
  induction s with
  | nil => rfl
  | cons c r ih =>
    simp only [goContains, Bool.or_eq_false_iff] at h
    obtain ⟨hc, hr⟩ := h
    simp only [decide_eq_false_iff_not] at hc
    simp only [trimRightSpaces, ih hr]
    cases r with
    | nil => simp [hc]
    | cons h2 t2 => rfl

/-- The right trim is unchanged by appending a suffix that ends clean. -/
theorem trimRight_append_of_no_space (s v : GoString)
    (hv : goContains ' ' v = false) (hne : v ≠ []) :
    trimRightSpaces (s ++ v) = s ++ v := by
  induction s with
  | nil => simpa using trimRight_of_no_space v hv
  | cons c r ih =>
    rw [List.cons_append]
    simp only [trimRightSpaces]
    rw [ih]
    cases hrv : r ++ v with
    | nil => exact absurd (List.append_eq_nil.mp hrv).2 hne
    | cons h2 t2 => rfl

/-- Appending one space does not change the right trim. -/
theorem trimRight_append_space (s : GoString) :
    trimRightSpaces (s ++ [' ']) = trimRightSpaces s := by
  induction s with
  | nil => rfl
  | cons c r ih =>
    rw [List.cons_append]
    simp only [trimRightSpaces]
    rw [ih]

/-- A string with no spaces at all is unchanged by trimming. -/
theorem trimSpaces_of_no_space (s : GoString) (h : goContains ' ' s = false) :
    trimSpaces s = s := by
  rw [trimSpaces, trimLeft_of_no_space s h, trimRight_of_no_space s h]

/-- Trimming a clean token with one trailing space yields the token. -/
theorem trimSpaces_append_space (p : GoString)
    (h : goContains ' ' p = false) : trimSpaces (p ++ [' ']) = p := by
  cases p with
  | nil => rfl
  | cons c r =>
    simp only [goContains, Bool.or_eq_false_iff] at h
    obtain ⟨hc, hr⟩ := h
    simp only [decide_eq_false_iff_not] at hc
    rw [trimSpaces, List.cons_append, trimLeftSpaces, if_neg hc,
      ← List.cons_append, trimRight_append_space,
      trimRight_of_no_space _ (by simp [goContains, hc, hr])]

/-- Trimming a leading space off a clean token yields the token. -/
theorem trimSpaces_space_cons (v : GoString)
    (h : goContains ' ' v = false) : trimSpaces (' ' :: v) = v := by
  rw [trimSpaces, trimLeftSpaces, if_pos rfl, trimLeft_of_no_space v h,
    trimRight_of_no_space v h]

/-- Trimming a tag built from a clean head token, an arbitrary middle and a
clean non-empty tail token changes nothing. -/
theorem trimSpaces_composite (p mid v : GoString)
    (hp : goContains ' ' p = false) (hpne : p ≠ [])
    (hv : goContains ' ' v = false) (hvne : v ≠ []) :
    trimSpaces (p ++ mid ++ v) = p ++ mid ++ v := by
  cases p with
  | nil => exact absurd rfl hpne
  | cons c r =>
    simp only [goContains, Bool.or_eq_false_iff] at hp
    obtain ⟨hc, hr⟩ := hp
    simp only [decide_eq_false_iff_not] at hc
    rw [trimSpaces, List.cons_append, List.cons_append, trimLeftSpaces,
      if_neg hc]
    have hassoc : c :: (r ++ mid ++ v) = (c :: (r ++ mid)) ++ v := by simp
    rw [hassoc, trimRight_append_of_no_space _ v hv hvne]

/-- A plain annotation token: non-empty and free of the characters the tag
grammar reacts to (comma, space and the two direction markers). -/
def plainToken (s : GoString) : Bool :=
  !s.isEmpty && !goContains ',' s && !goContains ' ' s &&
  !goContains '<' s && !goContains '>' s

/-- Unequal strings differ when one contains a character the other lacks. -/
theorem ne_of_contains_diff (ch : Char) (a b : GoString)
    (ha : goContains ch a = true) (hb : goContains ch b = false) : a ≠ b :=
  fun he => by rw [he, hb] at ha; exact absurd ha (by simp)

theorem bare_tag_saves (c : SchemaConfig) (fld : GoField) (p : GoString)
    (hp : plainToken p = true) (hpid : p ≠ gs "@id") (hpdash : p ≠ gs "-")
    (hns : fld.isEmptyStruct = false) (htag : fld.quadTag = p) :
    fieldRule c fld =
      Except.ok (some (Rule.save (c.toIRIFn p) false fld.isSlice)) := by
  simp only [plainToken, Bool.and_eq_true, Bool.not_eq_true'] at hp
  obtain ⟨⟨⟨⟨hne, hcom⟩, hsp⟩, hlt⟩, hgt⟩ := hp
  have hsplit : goSplit ',' p = [p] := goSplit_of_not_contains ',' p hcom
  have htrim : trimSpaces p = p := trimSpaces_of_no_space p hsp
  have hsn : goSplitN '>' 3 p = [p] := by
    simp [goSplitN, splitFirst_of_not_contains '>' p hgt]
  have hpne : p ≠ [] := fun h => by rw [h] at hne; simp at hne
  simp only [fieldRule, htag, hsplit, List.headD_cons, List.tail_cons, htrim]
  simp [hne, hpdash, hpid, hsn, htrim, hns, hlt, hpne]

theorem atid_tag_id_rule (c : SchemaConfig) (fld : GoField)
    (htag : fld.quadTag = gs "@id") :
    fieldRule c fld = Except.ok (some Rule.id) := by
  obtain ⟨nm, qt, jt, sl, es, an⟩ := fld
  have hq : qt = gs "@id" := htag
  subst hq
  rfl

theorem rev_tag_saves (c : SchemaConfig) (fld : GoField) (p : GoString)
    (hp : plainToken p = true)
    (hns : fld.isEmptyStruct = false)
    (htag : fld.quadTag = p ++ gs " < *") :
    fieldRule c fld =
      Except.ok (some (Rule.save (c.toIRIFn p) true fld.isSlice)) := by
  simp only [plainToken, Bool.and_eq_true, Bool.not_eq_true'] at hp
  obtain ⟨⟨⟨⟨hne, hcom⟩, hsp⟩, hlt⟩, hgt⟩ := hp
  have hpne : p ≠ [] := fun h => by rw [h] at hne; simp at hne
  have hlit : gs " < *" = [' ', '<', ' '] ++ ['*'] := by decide
  have hcomT : goContains ',' (p ++ gs " < *") = false := by
    rw [goContains_append, hcom]
    decide
  have hsplit : goSplit ',' (p ++ gs " < *") = [p ++ gs " < *"] :=
    goSplit_of_not_contains ',' _ hcomT
  have htrim : trimSpaces (p ++ gs " < *") = p ++ gs " < *" := by
    rw [hlit, ← List.append_assoc]
    exact trimSpaces_composite p [' ', '<', ' '] ['*'] hsp hpne
      (by decide) (by decide)
  have hspT : goContains ' ' (p ++ gs " < *") = true := by
    rw [goContains_append]
    simp [show goContains ' ' (gs " < *") = true from by decide]
  have hnd : p ++ gs " < *" ≠ gs "-" :=
    ne_of_contains_diff ' ' _ _ hspT (by decide)
  have hnid : p ++ gs " < *" ≠ gs "@id" :=
    ne_of_contains_diff ' ' _ _ hspT (by decide)
  have hneT : (p ++ gs " < *").isEmpty = false := by
    cases p with
    | nil => exact absurd rfl hpne
    | cons a b => rfl
  have hrev : goContains '<' (p ++ gs " < *") = true := by
    rw [goContains_append]
    simp [show goContains '<' (gs " < *") = true from by decide]
  have hform : p ++ gs " < *" = (p ++ [' ']) ++ '<' :: [' ', '*'] := by
    rw [hlit]
    simp
  have hsf : splitFirst '<' (p ++ gs " < *") = some (p ++ [' '], [' ', '*']) := by
    rw [hform]
    exact splitFirst_append '<' (p ++ [' ']) [' ', '*']
      (by rw [goContains_append, hlt]; decide)
  have hsn : goSplitN '<' 3 (p ++ gs " < *") = [p ++ [' '], [' ', '*']] := by
    simp [goSplitN, hsf, splitFirst_of_not_contains '<' [' ', '*'] (by decide)]
  have hps : trimSpaces (p ++ [' ']) = p := trimSpaces_append_space p hsp
  have hvs : trimSpaces [' ', '*'] = gs "*" := by decide
  simp only [fieldRule, htag, hsplit, List.headD_cons, List.tail_cons, htrim,
    hneT, Bool.false_eq_true, if_false]
  simp [hnd, hnid, htrim, hrev, hsn, hps, hvs, hns, hpne]

theorem constraint_tag_constrains (c : SchemaConfig) (fld : GoField)
    (p v : GoString)
    (hp : plainToken p = true) (hv : plainToken v = true)
    (hvstar : v ≠ gs "*")
    (htag : fld.quadTag = p ++ gs " > " ++ v) :
    fieldRule c fld =
      Except.ok (some (Rule.constraint (c.toIRIFn p) (c.toIRIFn v) false)) := by
  simp only [plainToken, Bool.and_eq_true, Bool.not_eq_true'] at hp hv
  obtain ⟨⟨⟨⟨hne, hcom⟩, hsp⟩, hlt⟩, hgt⟩ := hp
  obtain ⟨⟨⟨⟨hvne0, hvcom⟩, hvsp⟩, hvlt⟩, hvgt⟩ := hv
  have hpne : p ≠ [] := fun h => by rw [h] at hne; simp at hne
  have hvne : v ≠ [] := fun h => by rw [h] at hvne0; simp at hvne0
  have hlit : gs " > " = [' ', '>', ' '] := by decide
  have hcomT : goContains ',' (p ++ gs " > " ++ v) = false := by
    rw [goContains_append, goContains_append, hcom, hvcom]
    decide
  have hsplit : goSplit ',' (p ++ gs " > " ++ v) = [p ++ gs " > " ++ v] :=
    goSplit_of_not_contains ',' _ hcomT
  have htrim : trimSpaces (p ++ gs " > " ++ v) = p ++ gs " > " ++ v :=
    trimSpaces_composite p (gs " > ") v hsp hpne hvsp hvne
  have hspT : goContains ' ' (p ++ gs " > " ++ v) = true := by
    rw [goContains_append, goContains_append]
    simp [show goContains ' ' (gs " > ") = true from by decide]
  have hnd : p ++ gs " > " ++ v ≠ gs "-" :=
    ne_of_contains_diff ' ' _ _ hspT (by decide)
  have hnid : p ++ gs " > " ++ v ≠ gs "@id" :=
    ne_of_contains_diff ' ' _ _ hspT (by decide)
  have hneT : (p ++ gs " > " ++ v).isEmpty = false := by
    cases p with
    | nil => exact absurd rfl hpne
    | cons a b => rfl
  have hrev : goContains '<' (p ++ gs " > " ++ v) = false := by
    rw [goContains_append, goContains_append, hlt, hvlt]
    decide
  have hform : p ++ gs " > " ++ v = (p ++ [' ']) ++ '>' :: (' ' :: v) := by
    rw [hlit]
    simp
  have hsf : splitFirst '>' (p ++ gs " > " ++ v) =
      some (p ++ [' '], ' ' :: v) := by
    rw [hform]
    exact splitFirst_append '>' (p ++ [' ']) (' ' :: v)
      (by rw [goContains_append, hgt]; decide)
  have hsfv : splitFirst '>' (' ' :: v) = none :=
    splitFirst_of_not_contains '>' (' ' :: v)
      (by simp [goContains, hvgt])
  have hsn : goSplitN '>' 3 (p ++ gs " > " ++ v) =
      [p ++ [' '], ' ' :: v] := by
    simp only [goSplitN, hsf, hsfv]
  have hps : trimSpaces (p ++ [' ']) = p := trimSpaces_append_space p hsp
  have hvs : trimSpaces (' ' :: v) = v := trimSpaces_space_cons v hvsp
  have hvstar2 : (v = gs "*") = False := by simp [hvstar]
  simp only [fieldRule, htag, hsplit, List.headD_cons, List.tail_cons, htrim,
    hneT, Bool.false_eq_true, if_false]
  simp [hnd, hnid, htrim, hrev, hsn, hps, hvs, hpne, hvne, hvstar2,
    ← List.append_assoc]

/-- C5 amended (the constraint separator is `>`, not `=`, and the reverse
form is `predicate < value`): for a plain predicate token on a field not of
the empty-struct type, a bare `predicate` annotation yields a forward save
rule; `predicate < *` (the reverse marker `<` with the wildcard value)
yields a reverse save rule; `@id` yields the identity rule; and
`predicate > value` (for a plain non-wildcard value token) yields a
constraint rule on that predicate and value. -/
theorem tag_rule_forms (c : SchemaConfig) (fld : GoField) (p v : GoString)
    (hp : plainToken p = true) (hpid : p ≠ gs "@id") (hpdash : p ≠ gs "-")
    (hv : plainToken v = true) (hvstar : v ≠ gs "*")
    (hns : fld.isEmptyStruct = false) :
    (fld.quadTag = p →
      fieldRule c fld =
        Except.ok (some (Rule.save (c.toIRIFn p) false fld.isSlice))) ∧
    (fld.quadTag = p ++ gs " < *" →
      fieldRule c fld =
        Except.ok (some (Rule.save (c.toIRIFn p) true fld.isSlice))) ∧
    (fld.quadTag = gs "@id" →
      fieldRule c fld = Except.ok (some Rule.id)) ∧
    (fld.quadTag = p ++ gs " > " ++ v →
      fieldRule c fld =
        Except.ok
          (some (Rule.constraint (c.toIRIFn p) (c.toIRIFn v) false))) :=
  ⟨fun h => bare_tag_saves c fld p hp hpid hpdash hns h,
   fun h => rev_tag_saves c fld p hp hns h,
   fun h => atid_tag_id_rule c fld h,
   fun h => constraint_tag_constrains c fld p v hp hv hvstar h⟩

/-- A field annotated with the `predicate = value` form the claim
describes. -/
def fldEquals : GoField :=
  { name := gs "Knows", quadTag := gs "knows = bob", jsonTag := gs "",
    isSlice := false, isEmptyStruct := false, anonymous := false }

/-- Is the parse result a constraint rule? -/
def isConstraintRule : Except WErr (Option Rule) → Bool
  | Except.ok (some (Rule.constraint _ _ _)) => true
  | _ => false

/-- C5 counterexample: the annotation `knows = bob` does not parse as a
constraint rule — `fieldRule` knows no `=` separator (constraints are
written `predicate > value`) — so the whole text, equals sign included,
becomes the predicate of a forward save rule. -/
theorem equals_form_not_constraint :
    fieldRule cfgNative fldEquals =
      Except.ok (some (Rule.save (gs "knows = bob") false false)) ∧
    isConstraintRule (fieldRule cfgNative fldEquals) = false := by
  decide

/-- A scalar field with the bare annotation `knows`. -/
def fldKnows : GoField :=
  { name := gs "K", quadTag := gs "knows", jsonTag := gs "",
    isSlice := false, isEmptyStruct := false, anonymous := false }

/-- A scalar field with the reverse annotation `knows < *`. -/
def fldKnowsRev : GoField :=
  { name := gs "K", quadTag := gs "knows < *", jsonTag := gs "",
    isSlice := false, isEmptyStruct := false, anonymous := false }

/-- A scalar field with the constraint annotation `knows > bob`. -/
def fldKnowsConstraint : GoField :=
  { name := gs "K", quadTag := gs "knows > bob", jsonTag := gs "",
    isSlice := false, isEmptyStruct := false, anonymous := false }

/-- Witness for C5 amended: the four forms at concrete annotations. -/
theorem tag_rule_forms_witness :
    fieldRule cfgNative fldKnows =
      Except.ok (some (Rule.save (gs "knows") false false)) ∧
    fieldRule cfgNative fldKnowsRev =
      Except.ok (some (Rule.save (gs "knows") true false)) ∧
    fieldRule cfgNative fldID = Except.ok (some Rule.id) ∧
    fieldRule cfgNative fldKnowsConstraint =
      Except.ok (some (Rule.constraint (gs "knows") (gs "bob") false)) :=
  ⟨(tag_rule_forms cfgNative fldKnows (gs "knows") (gs "bob") (by decide)
      (by decide) (by decide) (by decide) (by decide) (by decide)).1 rfl,
   (tag_rule_forms cfgNative fldKnowsRev (gs "knows") (gs "bob") (by decide)
      (by decide) (by decide) (by decide) (by decide) (by decide)).2.1
      (by decide),
   (tag_rule_forms cfgNative fldID (gs "knows") (gs "bob") (by decide)
      (by decide) (by decide) (by decide) (by decide) (by decide)).2.2.1 rfl,
   (tag_rule_forms cfgNative fldKnowsConstraint (gs "knows") (gs "bob")
      (by decide) (by decide) (by decide) (by decide) (by decide)
      (by decide)).2.2.2 (by decide)⟩
